import Mathlib

/-!
# Verification of the oneseismic query engine against its specification

Shallow embedding of the core query-engine code of the repository:
`internal/core/core.go` (Go orchestration: surface marshalling, attribute
pipeline, worker joins, buffer slicing) and `internal/vds/vds.cpp` (C++
engine: unit validation, fence bounds checking, horizon sampling, fill
value handling).

Floating point values are modelled as rationals (`ℚ`): every operation the
claims touch is a comparison, an addition of an exactly representable
constant (±0.5, ±above, ±below), or a copy, so rationals are a faithful
model. Machine integers are modelled as `ℕ`. Fallible code returns
`Except VdsError`.

Definitions whose implementing code is not part of the repository snapshot
(only its declarations, callers, or tests are) carry a doc comment starting
with `Modelled from the spec:`.
-/

namespace Oneseismic

/-- Error kinds, from `internal/core/core.go` (`toError`, which maps
`STATUS_BAD_REQUEST` to `InvalidArgument` and `STATUS_RUNTIME_ERROR` /
`STATUS_NULLPTR_ERROR` to `InternalError`) together with the C++ side
(`std::runtime_error` thrown by `internal/vds/vds.cpp`). -/
inductive VdsError where
  | invalidArgument (msg : String)
  | internalError (msg : String)
  | runtime (msg : String)
deriving DecidableEq, Repr

instance {ε α : Type} [DecidableEq ε] [DecidableEq α] : DecidableEq (Except ε α) :=
  fun x y =>
    match x, y with
    | .ok a, .ok b =>
      if h : a = b then .isTrue (by rw [h]) else
        .isFalse (by intro hh; cases hh; exact h rfl)
    | .ok _, .error _ => .isFalse (by intro hh; cases hh)
    | .error _, .ok _ => .isFalse (by intro hh; cases hh)
    | .error e, .error f =>
      if h : e = f then .isTrue (by rw [h]) else
        .isFalse (by intro hh; cases hh; exact h rfl)

/-- Kernel-computable model of Go `strings.ToLower` / C++ lowercase
comparison for the ASCII identifiers this API matches on (Lean's
built-in `String.toLower` does not reduce in the kernel). -/
def toLowerStr (s : String) : String := ⟨s.data.map Char.toLower⟩

/-- `RegularSurface` from `internal/core/core.go` (lines 55-81): a height
map with a rotated affine placement and a fill sentinel. Pointer-typed
fields of the Go struct are modelled as plain values. -/
structure RegularSurface where
  values : List (List ℚ)
  xori : ℚ
  yori : ℚ
  xinc : ℚ
  yinc : ℚ
  rotation : ℚ
  fillValue : ℚ
deriving DecidableEq, Repr

/-- `nrows := len(surface.Values)` -/
def RegularSurface.nrows (s : RegularSurface) : ℕ := s.values.length

/-- `ncols := len(surface.Values[0])` -/
def RegularSurface.ncols (s : RegularSurface) : ℕ := (s.values.headD []).length

/-- The row-length error message from `RegularSurface.toCdata`
(`internal/core/core.go` lines 308-314). -/
def rowLengthMsg (ncols i rowlen : ℕ) : String :=
  "Surface rows are not of the same length. Row 0 has " ++ toString ncols ++
    " elements. Row " ++ toString i ++ " has " ++ toString rowlen ++ " elements"

/-- One row of `RegularSurface.toCdata`: a cell equal to the fill value is
copied unchanged, any other cell is shifted (`internal/core/core.go`
lines 317-323). -/
def toCdataRow (fill shift : ℚ) (row : List ℚ) : List ℚ :=
  row.map (fun v => if v = fill then v else v + shift)

/-- Row-major accumulation of `RegularSurface.toCdata`, tracking the row
index `i` for the error message. The first row whose length differs from
`ncols` aborts the conversion. -/
def toCdataAux (fill shift : ℚ) (ncols : ℕ) :
    ℕ → List (List ℚ) → Except VdsError (List ℚ)
  | _, [] => .ok []
  | i, row :: rest =>
    if row.length = ncols then
      match toCdataAux fill shift ncols (i + 1) rest with
      | .ok tail => .ok (toCdataRow fill shift row ++ tail)
      | .error e => .error e
    else
      .error (.invalidArgument (rowLengthMsg ncols i row.length))

/-- `RegularSurface.toCdata` from `internal/core/core.go` (lines 301-326):
flatten the surface into row-major order, shifting every non-fill cell by
`shift` and validating that all rows have the same length as row 0. -/
def RegularSurface.toCdata (s : RegularSurface) (shift : ℚ) :
    Except VdsError (List ℚ) :=
  toCdataAux s.fillValue shift s.ncols 0 s.values

/-- The horizon buffer allocation from `VDSHandle.GetAttributes`
(`internal/core/core.go` lines 637-641): `horizonBufferSize :=
dataOffset[hsize] * 4`, replaced by a single sentinel byte when zero,
because an empty Go slice cannot be referenced. -/
def horizonAllocation (dataOffset : List ℕ) (hsize : ℕ) : ℕ :=
  let size := dataOffset.getD hsize 0 * 4
  if size = 0 then 1 else size

/-- The error collection loop shared by `VDSHandle.fetchHorizon`
(`internal/core/core.go` lines 732-738) and
`VDSHandle.calculateAttributes` (lines 804-810): after joining all
workers, keep the non-nil results in arrival order. -/
def collectComputeErrors : List (Option VdsError) → List VdsError
  | [] => []
  | none :: rest => collectComputeErrors rest
  | some e :: rest => e :: collectComputeErrors rest

/-- The join-and-return logic of `VDSHandle.fetchHorizon`
(`internal/core/core.go` lines 740-743) and
`VDSHandle.calculateAttributes` (lines 812-814): if any worker posted an
error, discard the buffer and return the first collected error, otherwise
return the buffer. The input list holds the results of all spawned
workers in the order they were collected from the result channel. -/
def joinWorkers {α : Type} (results : List (Option VdsError)) (buffer : α) :
    Except VdsError α :=
  match collectComputeErrors results with
  | [] => .ok buffer
  | e :: _ => .error e

/-! ## Axis names and unit validation (`internal/vds/vds.cpp`) -/

/-- `enum axis_name` from the C type header (`I=0 ... SAMPLE=7`). -/
inductive AxisName where
  | I
  | J
  | K
  | INLINE
  | CROSSLINE
  | DEPTH
  | TIME
  | SAMPLE
deriving DecidableEq, Repr

/-- The depth unit lookup table of `unit_validation`
(`internal/vds/vds.cpp` lines 81-85). The strings are the values of
`OpenVDS::KnownUnitNames::Meter/Foot/USSurveyFoot`. -/
def depthUnits : List String := ["m", "ft", "ftUS"]

/-- The time unit lookup table of `unit_validation`
(`internal/vds/vds.cpp` lines 87-90): `Millisecond`, `Second`. -/
def timeUnits : List String := ["ms", "s"]

/-- The sample unit lookup table of `unit_validation`
(`internal/vds/vds.cpp` lines 92-94): `Unitless`. -/
def sampleUnits : List String := ["unitless"]

/-- `unit_validation` from `internal/vds/vds.cpp` (lines 79-117): a
vertical-domain slice axis is only valid when the cube's Z-axis unit
belongs to the corresponding unit table; the horizontal and index axes
accept any unit. -/
def unit_validation (ax : AxisName) (zunit : String) : Bool :=
  match ax with
  | .I => true
  | .J => true
  | .K => true
  | .INLINE => true
  | .CROSSLINE => true
  | .DEPTH => depthUnits.contains zunit
  | .TIME => timeUnits.contains zunit
  | .SAMPLE => sampleUnits.contains zunit

/-- Modelled from the spec: `Direction::to_string` (direction.cpp is not
under src/; only callers are). `MetadataHandle::get_dimension` in
`internal/core/metadatahandle.cpp` matches its output against the VDS
dimension names, so it returns the OpenVDS axis names. -/
def directionToString : AxisName → String
  | .I => "I"
  | .J => "J"
  | .K => "K"
  | .INLINE => "Inline"
  | .CROSSLINE => "Crossline"
  | .DEPTH => "Depth"
  | .TIME => "Time"
  | .SAMPLE => "Sample"

/-- The unit-mismatch message built by `fetch_slice`
(`internal/vds/vds.cpp` lines 145-146). -/
def sliceUnitMsg (ax : AxisName) (zunit : String) : String :=
  "Unable to use " ++ directionToString ax ++ " on cube with depth units: " ++ zunit

/-- The unit-validation step of `fetch_slice` (`internal/vds/vds.cpp`
lines 142-148): on mismatch a `std::runtime_error` carrying
`sliceUnitMsg` is thrown, otherwise the slice request proceeds. -/
def fetch_slice_unit_check (ax : AxisName) (zunit : String) : Except VdsError Unit :=
  if unit_validation ax zunit then .ok () else .error (.runtime (sliceUnitMsg ax zunit))

/-! ## Fence (`internal/vds/vds.cpp` `fetch_fence`) -/

/-- The per-dimension bounds check of `fetch_fence`
(`internal/vds/vds.cpp` lines 242-253): the *unshifted* transformer
output must lie in `[-0.5, nsamples - 0.5)`. -/
def validateBoundary (c : ℚ) (nsamples : ℕ) : Bool :=
  decide (-(1 / 2 : ℚ) ≤ c) && decide (c < (nsamples : ℚ) - 1 / 2)

/-- The out-of-bounds message of `fetch_fence` (`internal/vds/vds.cpp`
lines 246-251). The C++ renders the floats with `std::to_string`; the
numeric rendering here is schematic, the surrounding text is verbatim. -/
def fenceOOBMsg (x y : ℚ) (d : ℕ) : String :=
  "Coordinate (" ++ toString x ++ "," ++ toString y ++
    ") is out of boundaries in dimension " ++ toString d ++ "."

/-- The outcome of processing one fence point: either the voxel-center
coordinate handed to `read_traces`, or a trace substituted wholesale with
the fill value. -/
inductive FenceTrace where
  | fetch (i : ℚ) (x : ℚ)
  | fillTrace (f : ℚ)
deriving DecidableEq, Repr

/-- One iteration of the fence point loop of `fetch_fence`
(`internal/vds/vds.cpp` lines 236-273). `transform` is the
coordinate-system dispatch (lines 219-231): index, annotation or CDP to
IJ. Dimension 0 (Inline) is validated before dimension 1 (Crossline); a
point that passes both checks is shifted by +0.5 per axis before being
handed to the fetch. The `fillValue` branch embeds the current
`cppapi::fence` entry point (declared in `internal/core/capi.cpp` lines
180-207 and exercised by `TestFenceBordersWithFillValue`); its
substitution behaviour is Modelled from the spec: an out-of-bounds point
yields a fill-filled trace instead of an error when a fill value was
supplied, and the error is classified as a bad request. -/
def fencePoint (transform : ℚ × ℚ → ℚ × ℚ) (ilineN xlineN : ℕ)
    (fillValue : Option ℚ) (p : ℚ × ℚ) : Except VdsError FenceTrace :=
  let c := transform p
  if validateBoundary c.1 ilineN = false then
    match fillValue with
    | none => .error (.invalidArgument (fenceOOBMsg p.1 p.2 0))
    | some f => .ok (.fillTrace f)
  else if validateBoundary c.2 xlineN = false then
    match fillValue with
    | none => .error (.invalidArgument (fenceOOBMsg p.1 p.2 1))
    | some f => .ok (.fillTrace f)
  else
    .ok (.fetch (c.1 + 1 / 2) (c.2 + 1 / 2))

/-- Expansion of one processed fence point into its trace of
`sample.nsamples` floats. `readTrace` abstracts the external
`read_traces` primitive (one trace per coordinate). -/
def fencePointTrace (sampleN : ℕ) (readTrace : ℚ → ℚ → List ℚ) :
    FenceTrace → List ℚ
  | .fetch i x => readTrace i x
  | .fillTrace f => List.replicate sampleN f

/-- The fence operation over a list of (x, y) points: process every point
(failing on the first out-of-bounds point when no fill value is given),
then expand each into its trace. -/
def fetchFence (transform : ℚ × ℚ → ℚ × ℚ) (ilineN xlineN sampleN : ℕ)
    (fillValue : Option ℚ) (readTrace : ℚ → ℚ → List ℚ)
    (points : List (ℚ × ℚ)) : Except VdsError (List (List ℚ)) := do
  let traces ← points.mapM (fencePoint transform ilineN xlineN fillValue)
  pure (traces.map (fencePointTrace sampleN readTrace))

/-! ## Horizon sampling (`internal/vds/vds.cpp` `fetch_horizon`) -/

/-- The data of one horizon request that the per-cell loop of
`fetch_horizon` consumes. `cellIJ` is the composite of
`surface.coordinate(row, col)` and `WorldToIJKPosition`
(`internal/vds/vds.cpp` lines 421-423); `depthK` is
`AnnotationToIJKPosition` on the vertical coordinate (line 424); both
are kept abstract, the engine code under proof is what is done with
their outputs. `above`/`below` are `vertical.nsamples_above()` and
`vertical.nsamples_below()` of the squeezed vertical window;
`sampleMin`/`sampleMax` only feed the out-of-range message. -/
structure HorizonQuery where
  fill : ℚ
  cellIJ : ℕ → ℕ → ℚ × ℚ
  depthK : ℚ → ℚ
  ilineN : ℕ
  xlineN : ℕ
  sampleN : ℕ
  above : ℕ
  below : ℕ
  sampleMin : ℚ
  sampleMax : ℚ

/-- `vertical.size() = nsamples_above + 1 + nsamples_below`. -/
def HorizonQuery.vsize (q : HorizonQuery) : ℕ := q.above + 1 + q.below

/-- The `inrange` lambda of `fetch_horizon` (`internal/vds/vds.cpp`
lines 380-382): `0 <= voxel and voxel < axis.nsamples()`. -/
def inrangeAxis (nsamples : ℕ) (v : ℚ) : Bool :=
  decide (0 ≤ v) && decide (v < (nsamples : ℚ))

/-- The vertical out-of-bounds message of `fetch_horizon`
(`internal/vds/vds.cpp` lines 449-457); numeric rendering schematic. -/
def horizonOOBMsg (row col : ℕ) (top bottom smin smax : ℚ) : String :=
  "Vertical window is out of vertical bounds at row: " ++ toString row ++
    " col:" ++ toString col ++ ". Request: [" ++ toString bottom ++ ", " ++
    toString top ++ "]. Seismic bounds: [" ++ toString smin ++ ", " ++
    toString smax ++ "]"

/-- The per-cell outcome of the `fetch_horizon` loop: either a no-value
cell (fill-marked or horizontally out of range) for which nothing is
emitted, or the `vertical.size()` voxel-center sample coordinates
`(iline, xline, sample)`. -/
inductive HorizonCell where
  | noval
  | samples (coords : List (ℚ × ℚ × ℚ))
deriving DecidableEq, Repr

/-- One iteration of the cell loop of `fetch_horizon`
(`internal/vds/vds.cpp` lines 412-465): a fill-marked cell and a
horizontally out-of-range cell become no-value cells; otherwise the cell
is shifted by +0.5 per axis and, unless the vertical window leaves the
cube (an error), `vertical.size()` coordinates spanning
`[k - nsamples_above, k + nsamples_below]` in unit steps are emitted.
The C++ loop `for (cur = top; cur <= bottom; cur++)` runs exactly
`above + 1 + below` times because `top` and `bottom` differ from `k` by
integer offsets. -/
def horizonCell (q : HorizonQuery) (row col : ℕ) (depth : ℚ) :
    Except VdsError HorizonCell :=
  if depth = q.fill then .ok .noval
  else
    let ij := q.cellIJ row col
    let i0 := ij.1 + 1 / 2
    let x0 := ij.2 + 1 / 2
    let k := q.depthK depth + 1 / 2
    if (inrangeAxis q.ilineN i0 && inrangeAxis q.xlineN x0) = false then .ok .noval
    else
      let top := k - q.above
      let bottom := k + q.below
      if (inrangeAxis q.sampleN top && inrangeAxis q.sampleN bottom) = false then
        .error (.runtime (horizonOOBMsg row col top bottom q.sampleMin q.sampleMax))
      else
        .ok (.samples ((List.range q.vsize).map (fun t : ℕ => (i0, x0, top + (t : ℚ)))))

/-- The inner (column) loop of the surface walk of `fetch_horizon`,
carrying the current column index. -/
def horizonRowAux (q : HorizonQuery) (row : ℕ) :
    ℕ → List ℚ → Except VdsError (List HorizonCell)
  | _, [] => .ok []
  | col, v :: rest => do
    let c ← horizonCell q row col v
    let cs ← horizonRowAux q row (col + 1) rest
    pure (c :: cs)

/-- The outer (row) loop of the surface walk of `fetch_horizon`,
carrying the current row index; cells are produced in row-major order. -/
def horizonGridAux (q : HorizonQuery) :
    ℕ → List (List ℚ) → Except VdsError (List HorizonCell)
  | _, [] => .ok []
  | row, vals :: rest => do
    let cs ← horizonRowAux q row 0 vals
    let css ← horizonGridAux q (row + 1) rest
    pure (cs ++ css)

/-- The row-major surface walk of `fetch_horizon`
(`internal/vds/vds.cpp` lines 411-466). -/
def horizonCells (q : HorizonQuery) (values : List (List ℚ)) :
    Except VdsError (List HorizonCell) :=
  horizonGridAux q 0 values

/-- Whether a cell contributes samples to the packed buffer. -/
def HorizonCell.isPopulated : HorizonCell → Bool
  | .noval => false
  | .samples _ => true

/-- The `vertical.size()` buffer values of one cell after `read_samples`
and the `write_fillvalue` post-pass (`internal/vds/vds.cpp` lines
340-354 and 479): a no-value region is overwritten with the fill value,
a populated region holds the values read at the emitted coordinates
(`readSample` abstracts the external interpolated voxel fetch). -/
def cellBuffer (q : HorizonQuery) (readSample : ℚ × ℚ × ℚ → ℚ) :
    HorizonCell → List ℚ
  | .noval => List.replicate q.vsize q.fill
  | .samples coords => coords.map readSample

/-- The full horizon output buffer of `fetch_horizon`: the per-cell
regions in row-major order. -/
def horizonBuffer (q : HorizonQuery) (readSample : ℚ × ℚ × ℚ → ℚ)
    (cells : List HorizonCell) : List ℚ :=
  (cells.map (cellBuffer q readSample)).flatten

/-! ## Buffer offsets and the attribute pass -/

/-- Prefix-sum accumulation for the buffer-offset pass. -/
def bufferOffsetsAux (vsize : ℕ) : ℕ → List Bool → List ℕ
  | acc, [] => [acc]
  | acc, p :: rest => acc :: bufferOffsetsAux vsize (acc + if p then vsize else 0) rest

/-- Modelled from the spec: `cppapi::horizon_buffer_offsets` (called from
`internal/core/capi.cpp` lines 242-270; its implementation is not under
src/) computes `offsets[hsize+1]` where `offsets[k+1] - offsets[k]` is
the window size for populated cells and 0 for fill or out-of-range
cells. -/
def bufferOffsets (vsize : ℕ) (populated : List Bool) : List ℕ :=
  bufferOffsetsAux vsize 0 populated

/-- The window of one cell in the packed (offset-addressed) horizon
buffer: the region `[offsets[k], offsets[k+1])`. -/
def cellWindowAt (horizon : List ℚ) (offsets : List ℕ) (k : ℕ) : List ℚ :=
  (horizon.drop (offsets.getD k 0)).take (offsets.getD (k + 1) 0 - offsets.getD k 0)

/-- The window contents of one cell in the packed buffer addressed by
`bufferOffsets`: nothing is stored for a no-value cell. -/
def cellWindow (readSample : ℚ × ℚ × ℚ → ℚ) : HorizonCell → List ℚ
  | .noval => []
  | .samples coords => coords.map readSample

/-- The packed horizon buffer of the offset-addressed pipeline
(`VDSHandle.GetAttributes` in `internal/core/core.go`): per-cell windows
concatenated, with no-value cells occupying zero positions. -/
def packedHorizon (readSample : ℚ × ℚ × ℚ → ℚ) (cells : List HorizonCell) : List ℚ :=
  (cells.map (cellWindow readSample)).flatten

/-- Modelled from the spec: the attribute pass (`cppapi::attributes`,
called from `internal/core/capi.cpp` lines 327-391; its implementation
is not under src/) reads each cell's window from the horizon buffer and
a window of length 0 emits the fill value for every attribute. -/
def attributeCell (fill : ℚ) (kernel : List ℚ → ℚ) (window : List ℚ) : ℚ :=
  if window.isEmpty then fill else kernel window

/-- Modelled from the spec: in between-surfaces mode any cell where
either the primary or the (aligned) secondary value is the respective
fill value becomes a fill cell. (`cppapi::align_surfaces` is declared in
`internal/core/capi.cpp` lines 393-418; its implementation is not under
src/.) -/
def betweenIsFill (fillP fillS p s : ℚ) : Bool :=
  decide (p = fillP) || decide (s = fillS)

/-- Modelled from the spec: the window handed to the attribute kernels
for a between-surfaces cell: a fill cell contributes an empty window,
hence the fill value in every output map. -/
def betweenCellWindow (fillP fillS p s : ℚ) (window : List ℚ) : List ℚ :=
  if betweenIsFill fillP fillS p s then [] else window

/-! ## The attributes entry point (`internal/core/core.go` `GetAttributes`) -/

/-- `enum attribute` from the C type header, restricted to the values
`GetAttributeType` in `internal/core/core.go` can produce. -/
inductive Attr where
  | VALUE
  | MIN
  | MAX
  | MAXABS
  | MEAN
  | MEANABS
  | MEANPOS
  | MEANNEG
  | MEDIAN
  | RMS
  | VAR
  | SD
  | SUMPOS
  | SUMNEG
deriving DecidableEq, Repr

/-- The invalid-attribute message of `GetAttributeType`
(`internal/core/core.go` lines 247-257). -/
def invalidAttributeMsg (attrName : String) : String :=
  "invalid attribute '" ++ attrName ++ "', valid options are: " ++
    "samplevalue, min, max, maxabs, mean, meanabs, meanpos, meanneg, " ++
    "median, rms, var, sd, sumpos, sumneg"

/-- `GetAttributeType` from `internal/core/core.go` (lines 214-258):
case-insensitive attribute-name lookup; the empty string falls through
to the default error. -/
def GetAttributeType (attrName : String) : Except VdsError Attr :=
  match toLowerStr attrName with
  | "samplevalue" => .ok .VALUE
  | "min" => .ok .MIN
  | "max" => .ok .MAX
  | "maxabs" => .ok .MAXABS
  | "mean" => .ok .MEAN
  | "meanabs" => .ok .MEANABS
  | "meanpos" => .ok .MEANPOS
  | "meanneg" => .ok .MEANNEG
  | "median" => .ok .MEDIAN
  | "rms" => .ok .RMS
  | "var" => .ok .VAR
  | "sd" => .ok .SD
  | "sumpos" => .ok .SUMPOS
  | "sumneg" => .ok .SUMNEG
  | _ => .error (.invalidArgument (invalidAttributeMsg attrName))

/-- The above/below validation message of `VDSHandle.GetAttributes`
(`internal/core/core.go` lines 572-576). Go renders the floats with
`%f`; the numeric rendering here is schematic. -/
def aboveBelowMsg (above below : ℚ) : String :=
  "Above and below must be positive. Above was " ++ toString above ++
    ", below was " ++ toString below

/-- The request-validation prefix of `VDSHandle.GetAttributes`
(`internal/core/core.go` lines 554-619): resolve every attribute name
(failing on the first invalid one), reject `above < 0 || below < 0`,
then derive the primary, top (`shift = -above`) and bottom
(`shift = below`) surface data via `toCdata`. `pipeline` abstracts the
remainder of the operation (the buffer-offset pass, the horizon fetch
and the attribute computation); it is only reached when validation
passed, so an early error is returned without any data being fetched. -/
def GetAttributes {β : Type} (primarySurface : RegularSurface)
    (above below stepsize : ℚ) (attributes : List String)
    (pipeline : List ℚ → List ℚ → List ℚ → List Attr → ℚ → Except VdsError β) :
    Except VdsError β := do
  let targetAttributes ← attributes.mapM GetAttributeType
  if above < 0 ∨ below < 0 then
    .error (.invalidArgument (aboveBelowMsg above below))
  else do
    let _cPrimary ← primarySurface.toCdata 0
    let cTop ← primarySurface.toCdata (-above)
    let cBottom ← primarySurface.toCdata below
    pipeline _cPrimary cTop cBottom targetAttributes stepsize

/-! ## Worker ranges of the attribute pass (`internal/core/core.go`
`calculateAttributes`) -/

/-- `windowsPerRoutine := int(math.Ceil(float64(hsize) / 32))` with
`maxConcurrency = 32` (`internal/core/core.go` lines 761-762). `hsize`
is far below 2^53, so the float ceiling equals the natural ceiling
division. -/
def windowsPerRoutine (hsize : ℕ) : ℕ := (hsize + 31) / 32

/-- The chunk loop of `VDSHandle.calculateAttributes`
(`internal/core/core.go` lines 766-801): while work remains, take
`min(windowsPerRoutine, remaining)` cells and spawn a worker for
`[from, to)`. `fuel` bounds the recursion and never runs out when
`wpr ≥ 1` (each step consumes at least one cell, mirroring the Go loop
which would not terminate for `wpr = 0`). -/
def chunkRangesAux (wpr : ℕ) : ℕ → ℕ → ℕ → List (ℕ × ℕ)
  | 0, _, _ => []
  | fuel + 1, start, remaining =>
    if remaining = 0 then []
    else
      let size := min wpr remaining
      (start, start + size) :: chunkRangesAux wpr fuel (start + size) (remaining - size)

/-- The worker ranges spawned by `VDSHandle.calculateAttributes` over
`[0, hsize)`. -/
def attributeRanges (hsize : ℕ) : List (ℕ × ℕ) :=
  chunkRangesAux (windowsPerRoutine hsize) hsize 0 hsize

/-- Consecutive coverage of `[a, c)` by non-empty half-open intervals:
the ranges are contiguous, in order, and exhaust the interval. -/
inductive Covers : ℕ → ℕ → List (ℕ × ℕ) → Prop where
  | nil (a : ℕ) : Covers a a []
  | cons {a b c : ℕ} {l : List (ℕ × ℕ)} :
      a < b → Covers b c l → Covers a c ((a, b) :: l)

/-! ## Output assembly (`internal/core/core.go` `calculateAttributes`) -/

/-- The output assembly of `VDSHandle.calculateAttributes`
(`internal/core/core.go` lines 757-758 and 816-819): with
`mapsize = hsize * 4`, attribute `i` receives the byte region
`buffer[i*mapsize : (i+1)*mapsize]` of the shared output buffer. -/
def calculateAttributesOut {α : Type} (buffer : List α) (hsize n : ℕ) :
    List (List α) :=
  (List.range n).map (fun i => (buffer.drop (i * (hsize * 4))).take (hsize * 4))

/-! ## Generic lemmas about rectangular flattened lists -/

theorem flatten_getElem_of_rect {α : Type} (l : List (List α)) (n : ℕ)
    (hl : ∀ r ∈ l, r.length = n) (i j : ℕ) (row : List α)
    (hrow : l[i]? = some row) (hj : j < n) :
    l.flatten[i * n + j]? = row[j]? := by
  induction l generalizing i with
  | nil => simp at hrow
  | cons r rest ih =>
    have hr : r.length = n := hl r (by simp)
    cases i with
    | zero =>
      simp only [List.getElem?_cons_zero, Option.some.injEq] at hrow
      subst hrow
      rw [List.flatten_cons, Nat.zero_mul, Nat.zero_add,
        List.getElem?_append_left (by rw [hr]; exact hj)]
    | succ i =>
      rw [List.flatten_cons]
      have hidx : (i + 1) * n + j = r.length + (i * n + j) := by rw [hr]; ring
      rw [hidx, List.getElem?_append_right (Nat.le_add_right _ _),
        Nat.add_sub_cancel_left]
      exact ih (fun x hx => hl x (by simp [hx])) i (by simpa using hrow)

theorem flatten_drop_take_of_rect {α : Type} (l : List (List α)) (n : ℕ)
    (hl : ∀ r ∈ l, r.length = n) (i : ℕ) (row : List α)
    (hrow : l[i]? = some row) :
    (l.flatten.drop (i * n)).take n = row := by
  induction l generalizing i with
  | nil => simp at hrow
  | cons r rest ih =>
    have hr : r.length = n := hl r (by simp)
    cases i with
    | zero =>
      simp only [List.getElem?_cons_zero, Option.some.injEq] at hrow
      subst hrow
      rw [List.flatten_cons, Nat.zero_mul, List.drop_zero, ← hr, List.take_left]
    | succ i =>
      rw [List.flatten_cons]
      have hidx : (i + 1) * n = r.length + i * n := by rw [hr]; ring
      rw [hidx, List.drop_append]
      exact ih (fun x hx => hl x (by simp [hx])) i (by simpa using hrow)

/-! ## Worker join (claim C6) -/

theorem collectComputeErrors_eq_nil (results : List (Option VdsError)) :
    collectComputeErrors results = [] ↔ ∀ r ∈ results, r = none := by
  induction results with
  | nil => simp [collectComputeErrors]
  | cons r rest ih =>
    cases r with
    | none => simpa [collectComputeErrors] using ih
    | some e => simp [collectComputeErrors]

theorem collectComputeErrors_append_first (pre : List (Option VdsError))
    (e : VdsError) (post : List (Option VdsError))
    (hpre : ∀ x ∈ pre, x = none) :
    collectComputeErrors (pre ++ some e :: post) = e :: collectComputeErrors post := by
  induction pre with
  | nil => simp [collectComputeErrors]
  | cons x xs ih =>
    have hx : x = none := hpre x (by simp)
    subst hx
    simp only [List.cons_append, collectComputeErrors]
    exact ih (fun y hy => hpre y (by simp [hy]))

/-- C6: a horizon-fetch or attribute pass whose workers all succeeded
returns the data buffer; as soon as any worker posted an error, the
buffer is discarded and the first collected error is returned after all
workers were joined (`joinWorkers` embeds the join loops of
`VDSHandle.fetchHorizon` and `VDSHandle.calculateAttributes` in
`internal/core/core.go`), so partial results are never returned. -/
theorem join_workers_all_or_nothing {α : Type}
    (results : List (Option VdsError)) (buffer : α) :
    (joinWorkers results buffer = .ok buffer ↔ ∀ r ∈ results, r = none) ∧
    (∀ pre e post, results = pre ++ some e :: post → (∀ x ∈ pre, x = none) →
      joinWorkers results buffer = .error e) ∧
    (∀ b : α, joinWorkers results buffer = .ok b → b = buffer) := by
  refine ⟨?_, ?_, ?_⟩
  · unfold joinWorkers
    rcases h : collectComputeErrors results with _ | ⟨e, es⟩
    · simpa using (collectComputeErrors_eq_nil results).mp h
    · constructor
      · intro hok
        cases hok
      · intro hall
        have : collectComputeErrors results = [] :=
          (collectComputeErrors_eq_nil results).mpr hall
        rw [h] at this
        cases this
  · intro pre e post hsplit hpre
    unfold joinWorkers
    rw [hsplit, collectComputeErrors_append_first pre e post hpre]
  · intro b hb
    unfold joinWorkers at hb
    rcases h : collectComputeErrors results with _ | ⟨e, es⟩ <;> rw [h] at hb
    · cases hb
      rfl
    · cases hb

/-- Witness for C6: a concrete join where the second worker failed
returns exactly that error, applied through the theorem. -/
theorem join_workers_all_or_nothing_witness :
    joinWorkers [none, some (VdsError.runtime "Failed to read from VDS."), none]
      (42 : ℕ) = .error (VdsError.runtime "Failed to read from VDS.") :=
  (join_workers_all_or_nothing
    [none, some (VdsError.runtime "Failed to read from VDS."), none] 42).2.1
    [none] _ [none] rfl (by simp)

/-! ## Horizon buffer allocation (claim C7) -/

/-- C7: the horizon buffer allocation of `VDSHandle.GetAttributes` is
`offsets[hsize] * sizeof(float)` bytes, except that a zero total
allocates exactly one sentinel element. -/
theorem horizon_allocation_size (dataOffset : List ℕ) (hsize : ℕ)
    (hlen : dataOffset.length = hsize + 1) :
    (dataOffset.getD hsize 0 ≠ 0 →
      horizonAllocation dataOffset hsize = dataOffset.getD hsize 0 * 4) ∧
    (dataOffset.getD hsize 0 = 0 → horizonAllocation dataOffset hsize = 1) := by
  refine ⟨fun h => ?_, fun h => ?_⟩
  · simp only [horizonAllocation]
    rw [if_neg (Nat.mul_ne_zero h (by decide))]
  · simp only [horizonAllocation]
    rw [h]
    rfl

/-- Witness for C7: a surface of 2 cells whose offset pass yielded
offsets `[0, 8, 20]` allocates 80 bytes, and an all-fill surface with
offsets `[0, 0, 0]` allocates a single sentinel element. -/
theorem horizon_allocation_size_witness :
    horizonAllocation [0, 8, 20] 2 = 80 ∧ horizonAllocation [0, 0, 0] 2 = 1 :=
  ⟨by
    have h := (horizon_allocation_size [0, 8, 20] 2 (by decide)).1 (by decide)
    simpa using h,
   (horizon_allocation_size [0, 0, 0] 2 (by decide)).2 (by decide)⟩

/-! ## Slice unit validation (claim C3) -/

/-- C3 counterexample: a Depth slice on a cube with vertical axis unit
"ms" is rejected, but not with the claimed bad-request message "Cannot
fetch depth slice for cube with vertical axis unit: ms": the `fetch_slice`
code in `internal/vds/vds.cpp` throws a runtime error reading "Unable to
use Depth on cube with depth units: ms". -/
theorem slice_unit_message_counterexample :
    fetch_slice_unit_check .DEPTH "ms" =
      .error (.runtime "Unable to use Depth on cube with depth units: ms") ∧
    fetch_slice_unit_check .DEPTH "ms" ≠
      .error (.invalidArgument
        "Cannot fetch depth slice for cube with vertical axis unit: ms") := by
  refine ⟨rfl, by decide⟩

/-- C3 (amended): a slice in a vertical domain is accepted exactly when
the cube's vertical axis unit belongs to that domain's unit set (Time:
ms or s; Depth: m, ft or ftUS; Sample: unitless), the directions
Inline, Crossline, I, J, K are accepted regardless of the vertical unit,
and on mismatch the slice operation fails with a runtime error carrying
the message "Unable to use <direction> on cube with depth units:
<unit>". -/
theorem slice_unit_validation (ax : AxisName) (zunit : String) :
    (ax = .I ∨ ax = .J ∨ ax = .K ∨ ax = .INLINE ∨ ax = .CROSSLINE →
      fetch_slice_unit_check ax zunit = .ok ()) ∧
    (ax = .TIME →
      (fetch_slice_unit_check ax zunit = .ok () ↔ zunit = "ms" ∨ zunit = "s")) ∧
    (ax = .DEPTH →
      (fetch_slice_unit_check ax zunit = .ok () ↔
        zunit = "m" ∨ zunit = "ft" ∨ zunit = "ftUS")) ∧
    (ax = .SAMPLE →
      (fetch_slice_unit_check ax zunit = .ok () ↔ zunit = "unitless")) ∧
    (unit_validation ax zunit = false →
      fetch_slice_unit_check ax zunit = .error (.runtime (sliceUnitMsg ax zunit))) := by
  refine ⟨?_, ?_, ?_, ?_, ?_⟩
  · rintro (rfl | rfl | rfl | rfl | rfl) <;> rfl
  · rintro rfl
    simp only [fetch_slice_unit_check, unit_validation, timeUnits]
    constructor
    · intro h
      by_cases h1 : zunit = "ms"
      · exact Or.inl h1
      · refine Or.inr ?_
        by_cases h2 : zunit = "s"
        · exact h2
        · simp [h1, h2, List.contains] at h
    · rintro (rfl | rfl) <;> rfl
  · rintro rfl
    simp only [fetch_slice_unit_check, unit_validation, depthUnits]
    constructor
    · intro h
      by_cases h1 : zunit = "m"
      · exact Or.inl h1
      refine Or.inr ?_
      by_cases h2 : zunit = "ft"
      · exact Or.inl h2
      refine Or.inr ?_
      by_cases h3 : zunit = "ftUS"
      · exact h3
      · simp [h1, h2, h3, List.contains] at h
    · rintro (rfl | rfl | rfl) <;> rfl
  · rintro rfl
    simp [fetch_slice_unit_check, unit_validation, sampleUnits]
  · intro hfail
    simp [fetch_slice_unit_check, hfail]

/-- Witness for C3: the amended theorem applied to the mismatching
request (Depth slice, unit "ms") and to an unconditionally legal one
(Inline slice, unit "ms"). -/
theorem slice_unit_validation_witness :
    fetch_slice_unit_check .DEPTH "ms" =
      .error (.runtime (sliceUnitMsg .DEPTH "ms")) ∧
    fetch_slice_unit_check .INLINE "ms" = .ok () :=
  ⟨(slice_unit_validation .DEPTH "ms").2.2.2.2 (by decide),
   (slice_unit_validation .INLINE "ms").1
     (Or.inr (Or.inr (Or.inr (Or.inl rfl))))⟩

/-! ## Above/below validation (claim C5) -/

/-- The single-cell surface used by the C5 concrete runs, mirroring the
`samples10Surface` grid of `core_test.go` with one 26 ms cell. -/
def c5Surface : RegularSurface where
  values := [[26]]
  xori := 2
  yori := 0
  xinc := 7.2111
  yinc := 3.6056
  rotation := 33.69
  fillValue := -999.25

/-- C5 counterexample: an attributes request with `above = 0`,
`below = 0` is accepted by `VDSHandle.GetAttributes` (the code only
rejects strictly negative values, and `TestAttributesAllFill` runs
successfully with a zero-thickness window), so "above ≤ 0 or below ≤ 0
fails" is false at this input. -/
theorem attributes_zero_above_below_counterexample :
    GetAttributes c5Surface 0 0 4 ["min", "samplevalue"]
      (fun _ _ _ _ _ => .ok (0 : ℕ)) = .ok 0 := by
  decide

theorem mapM_ok_of_forall {α β : Type} (f : α → Except VdsError β) (l : List α)
    (h : ∀ a ∈ l, ∃ b, f a = .ok b) : ∃ bs, l.mapM f = .ok bs := by
  induction l with
  | nil => exact ⟨[], rfl⟩
  | cons a rest ih =>
    obtain ⟨b, hb⟩ := h a (by simp)
    obtain ⟨bs, hbs⟩ := ih (fun x hx => h x (by simp [hx]))
    refine ⟨b :: bs, ?_⟩
    rw [List.mapM_cons, hb, hbs]
    rfl

/-- C5 (amended): an attributes request with `above < 0` or `below < 0`
(and well-formed attribute names, which are validated first) fails with
the bad-request message "Above and below must be positive. ..."
regardless of the downstream pipeline, i.e. before any data is fetched;
`above = 0` and `below = 0` are accepted. -/
theorem attributes_negative_above_below {β : Type}
    (surface : RegularSurface) (above below stepsize : ℚ)
    (attributes : List String)
    (pipeline : List ℚ → List ℚ → List ℚ → List Attr → ℚ → Except VdsError β)
    (hnames : ∀ a ∈ attributes, ∃ t, GetAttributeType a = .ok t)
    (hneg : above < 0 ∨ below < 0) :
    GetAttributes surface above below stepsize attributes pipeline =
      .error (.invalidArgument (aboveBelowMsg above below)) := by
  obtain ⟨bs, hbs⟩ := mapM_ok_of_forall GetAttributeType attributes hnames
  unfold GetAttributes
  rw [hbs]
  show (if above < 0 ∨ below < 0 then _ else _ : Except VdsError β) = _
  rw [if_pos hneg]

/-- Witness for C5: the amended theorem applied to the
`TestInvalidAboveBelow` input `above = -4`, `below = 1.11`. -/
theorem attributes_negative_above_below_witness :
    GetAttributes c5Surface (-4) 1.11 4 ["min", "samplevalue"]
      (fun _ _ _ _ _ => .ok (0 : ℕ)) =
      .error (.invalidArgument (aboveBelowMsg (-4) 1.11)) :=
  attributes_negative_above_below c5Surface (-4) 1.11 4 ["min", "samplevalue"] _
    (by
      intro a ha
      rcases List.mem_cons.mp ha with h | h
      · exact ⟨.MIN, by subst h; decide⟩
      · rcases List.mem_cons.mp h with h2 | h2
        · exact ⟨.VALUE, by subst h2; decide⟩
        · cases h2)
    (Or.inl (by norm_num))

/-! ## Derived surfaces (claim C8) -/

theorem toCdataAux_ok (fill shift : ℚ) (ncols : ℕ) (rows : List (List ℚ))
    (h : ∀ r ∈ rows, r.length = ncols) (i : ℕ) :
    toCdataAux fill shift ncols i rows =
      .ok ((rows.map (toCdataRow fill shift)).flatten) := by
  induction rows generalizing i with
  | nil => rfl
  | cons r rest ih =>
    have hr : r.length = ncols := h r (by simp)
    simp only [toCdataAux, if_pos hr, ih (fun x hx => h x (by simp [hx])) (i + 1),
      List.map_cons, List.flatten_cons]

theorem toCdata_ok (s : RegularSurface) (shift : ℚ)
    (h : ∀ r ∈ s.values, r.length = s.ncols) :
    s.toCdata shift = .ok ((s.values.map (toCdataRow s.fillValue shift)).flatten) :=
  toCdataAux_ok s.fillValue shift s.ncols s.values h 0

theorem toCdata_getElem (s : RegularSurface) (shift : ℚ)
    (hrect : ∀ r ∈ s.values, r.length = s.ncols)
    (row col : ℕ) (rowvals : List ℚ) (v : ℚ)
    (hrow : s.values[row]? = some rowvals) (hv : rowvals[col]? = some v) :
    ((s.values.map (toCdataRow s.fillValue shift)).flatten)[row * s.ncols + col]? =
      some (if v = s.fillValue then v else v + shift) := by
  have hmem : rowvals ∈ s.values := List.getElem?_mem hrow
  have hlen : rowvals.length = s.ncols := hrect rowvals hmem
  have hcol : col < s.ncols := by
    rw [List.getElem?_eq_some] at hv
    exact hlen ▸ hv.1
  have hmap : (s.values.map (toCdataRow s.fillValue shift))[row]? =
      some (toCdataRow s.fillValue shift rowvals) := by
    rw [List.getElem?_map, hrow]
    rfl
  have hl : ∀ r ∈ s.values.map (toCdataRow s.fillValue shift), r.length = s.ncols := by
    intro r hr
    obtain ⟨r0, hr0, rfl⟩ := List.mem_map.mp hr
    simpa [toCdataRow] using hrect r0 hr0
  rw [flatten_getElem_of_rect _ s.ncols hl row col _ hmap hcol]
  simp [toCdataRow, List.getElem?_map, hv]

/-- C8: in along-surface mode `VDSHandle.GetAttributes` derives the top
surface data via `toCdata (-above)` and the bottom surface data via
`toCdata below`: every cell equal to the fill value is carried over
unchanged (still exactly the fill value) in both derived surfaces, and
every other cell is shifted by `-above` (top) and `+below` (bottom). -/
theorem derived_surfaces_shift (s : RegularSurface) (above below : ℚ)
    (hrect : ∀ r ∈ s.values, r.length = s.ncols)
    (row col : ℕ) (rowvals : List ℚ) (v : ℚ)
    (hrow : s.values[row]? = some rowvals) (hv : rowvals[col]? = some v) :
    ∃ top bottom,
      s.toCdata (-above) = .ok top ∧ s.toCdata below = .ok bottom ∧
      (v = s.fillValue →
        top[row * s.ncols + col]? = some s.fillValue ∧
        bottom[row * s.ncols + col]? = some s.fillValue) ∧
      (v ≠ s.fillValue →
        top[row * s.ncols + col]? = some (v + -above) ∧
        bottom[row * s.ncols + col]? = some (v + below)) := by
  refine ⟨_, _, toCdata_ok s (-above) hrect, toCdata_ok s below hrect, ?_, ?_⟩
  · intro hfill
    rw [toCdata_getElem s (-above) hrect row col rowvals v hrow hv,
      toCdata_getElem s below hrect row col rowvals v hrow hv, if_pos hfill,
      if_pos hfill, hfill]
    exact ⟨rfl, rfl⟩
  · intro hfill
    rw [toCdata_getElem s (-above) hrect row col rowvals v hrow hv,
      toCdata_getElem s below hrect row col rowvals v hrow hv, if_neg hfill,
      if_neg hfill]
    exact ⟨rfl, rfl⟩

/-- The concrete surface of the C8 witness: one fill cell and three
plain cells on a 2x2 grid. -/
def c8Surface : RegularSurface where
  values := [[1, -999.25], [3, 4]]
  xori := 0
  yori := 0
  xinc := 1
  yinc := 1
  rotation := 0
  fillValue := -999.25

/-- Witness for C8: the shift theorem applied to cell (1, 1) of a
concrete surface with `above = 2`, `below = 3`. -/
theorem derived_surfaces_shift_witness :
    ∃ top bottom,
      c8Surface.toCdata (-2) = .ok top ∧ c8Surface.toCdata 3 = .ok bottom ∧
      ((4 : ℚ) = c8Surface.fillValue →
        top[1 * c8Surface.ncols + 1]? = some c8Surface.fillValue ∧
        bottom[1 * c8Surface.ncols + 1]? = some c8Surface.fillValue) ∧
      ((4 : ℚ) ≠ c8Surface.fillValue →
        top[1 * c8Surface.ncols + 1]? = some (4 + -2) ∧
        bottom[1 * c8Surface.ncols + 1]? = some (4 + 3)) :=
  derived_surfaces_shift c8Surface 2 3 (by decide) 1 1 [3, 4] 4 (by decide) (by decide)

/-! ## Fence bounds checking (claims C2 and C4) -/

theorem validateBoundary_eq_true (c : ℚ) (n : ℕ) :
    validateBoundary c n = true ↔ (-(1 / 2) ≤ c ∧ c < (n : ℚ) - 1 / 2) := by
  simp only [validateBoundary, Bool.and_eq_true, decide_eq_true_eq]

theorem validateBoundary_eq_false (c : ℚ) (n : ℕ) :
    validateBoundary c n = false ↔ (c < -(1 / 2) ∨ (n : ℚ) - 1 / 2 ≤ c) := by
  rw [← Bool.not_eq_true, validateBoundary_eq_true]
  constructor
  · intro h
    by_cases h1 : -(1 / 2 : ℚ) ≤ c
    · refine Or.inr ?_
      by_cases h2 : c < (n : ℚ) - 1 / 2
      · exact absurd ⟨h1, h2⟩ h
      · exact le_of_not_lt h2
    · exact Or.inl (lt_of_not_le h1)
  · rintro (h | h) ⟨h1, h2⟩
    · exact absurd h1 (not_le_of_lt h)
    · exact absurd h2 (not_lt_of_le h)

theorem fencePoint_some_ok (transform : ℚ × ℚ → ℚ × ℚ) (ilineN xlineN : ℕ)
    (f : ℚ) (pt : ℚ × ℚ) :
    fencePoint transform ilineN xlineN (some f) pt =
      .ok (if validateBoundary (transform pt).1 ilineN = false then .fillTrace f
        else if validateBoundary (transform pt).2 xlineN = false then .fillTrace f
        else .fetch ((transform pt).1 + 1 / 2) ((transform pt).2 + 1 / 2)) := by
  simp only [fencePoint]
  split_ifs <;> rfl

theorem fencePoint_none_error (transform : ℚ × ℚ → ℚ × ℚ) (ilineN xlineN : ℕ)
    (pt : ℚ × ℚ) (e : VdsError)
    (h : fencePoint transform ilineN xlineN none pt = .error e) :
    (validateBoundary (transform pt).1 ilineN = false ∧
      e = .invalidArgument (fenceOOBMsg pt.1 pt.2 0)) ∨
    (validateBoundary (transform pt).2 xlineN = false ∧
      e = .invalidArgument (fenceOOBMsg pt.1 pt.2 1)) := by
  simp only [fencePoint] at h
  split_ifs at h with h1 h2
  · exact Or.inl ⟨h1, (Except.error.inj h).symm⟩
  · exact Or.inr ⟨h2, (Except.error.inj h).symm⟩

theorem fencePoint_none_fails (transform : ℚ × ℚ → ℚ × ℚ) (ilineN xlineN : ℕ)
    (pt : ℚ × ℚ)
    (hoob : validateBoundary (transform pt).1 ilineN = false ∨
      validateBoundary (transform pt).2 xlineN = false) :
    ∀ b, fencePoint transform ilineN xlineN none pt ≠ .ok b := by
  intro b hb
  simp only [fencePoint] at hb
  split_ifs at hb with h1 h2
  rcases hoob with h | h
  · exact absurd h h1
  · exact absurd h h2

theorem mapM_ok_getElem {α β : Type} (f : α → Except VdsError β) (l : List α)
    (bs : List β) (h : l.mapM f = .ok bs) :
    bs.length = l.length ∧
    ∀ (j : ℕ) (a : α), l[j]? = some a → ∃ b, f a = .ok b ∧ bs[j]? = some b := by
  induction l generalizing bs with
  | nil =>
    rw [List.mapM_nil] at h
    change Except.ok [] = Except.ok bs at h
    cases h
    exact ⟨rfl, by intro j a ha; simp at ha⟩
  | cons a rest ih =>
    rw [List.mapM_cons] at h
    cases hfa : f a with
    | error e =>
      rw [hfa] at h
      change Except.error e = Except.ok bs at h
      cases h
    | ok b =>
      rw [hfa] at h
      cases hrest : rest.mapM f with
      | error e2 =>
        rw [hrest] at h
        change Except.error e2 = Except.ok bs at h
        cases h
      | ok cs =>
        rw [hrest] at h
        change Except.ok (b :: cs) = Except.ok bs at h
        cases h
        obtain ⟨hlen, hidx⟩ := ih cs hrest
        refine ⟨by simp [hlen], ?_⟩
        intro j x hx
        cases j with
        | zero =>
          simp only [List.getElem?_cons_zero, Option.some.injEq] at hx
          subst hx
          exact ⟨b, hfa, by simp⟩
        | succ j =>
          simp only [List.getElem?_cons_succ] at hx
          obtain ⟨y, hy1, hy2⟩ := hidx j x hx
          exact ⟨y, hy1, by simpa using hy2⟩

theorem mapM_error_of_failure {α β : Type} (f : α → Except VdsError β) (l : List α)
    (j : ℕ) (a : α) (hj : l[j]? = some a) (hfail : ∀ b, f a ≠ .ok b) :
    ∃ x e, x ∈ l ∧ f x = .error e ∧ l.mapM f = .error e := by
  induction l generalizing j with
  | nil => simp at hj
  | cons y rest ih =>
    cases hfy : f y with
    | error e =>
      refine ⟨y, e, by simp, hfy, ?_⟩
      rw [List.mapM_cons, hfy]
      rfl
    | ok b =>
      cases j with
      | zero =>
        simp only [List.getElem?_cons_zero, Option.some.injEq] at hj
        subst hj
        exact absurd hfy (hfail b)
      | succ j =>
        simp only [List.getElem?_cons_succ] at hj
        obtain ⟨x, e, hmem, hfe, hrest⟩ := ih j hj
        refine ⟨x, e, by simp [hmem], hfe, ?_⟩
        rw [List.mapM_cons, hfy, hrest]
        rfl

/-- C2: a fence point whose transformed IJ position falls outside
`[-0.5, nsamples - 0.5)` on the Inline (dimension 0) or Crossline
(dimension 1) axis is out of bounds. Without a fill value the fence
operation fails with a bad-request error whose message is exactly
"Coordinate (x,y) is out of boundaries in dimension d." for the first
offending point; with a fill value the offending point's trace is
`sample.nsamples` copies of the fill value while every in-bounds point's
trace is the fetched trace at its shifted coordinate, unaffected. -/
theorem fence_out_of_bounds
    (transform : ℚ × ℚ → ℚ × ℚ) (ilineN xlineN sampleN : ℕ)
    (readTrace : ℚ → ℚ → List ℚ) (points : List (ℚ × ℚ))
    (idx : ℕ) (p : ℚ × ℚ) (hp : points[idx]? = some p)
    (hoob : validateBoundary (transform p).1 ilineN = false ∨
      validateBoundary (transform p).2 xlineN = false) :
    (∃ q, q ∈ points ∧
      ((validateBoundary (transform q).1 ilineN = false ∧
        fetchFence transform ilineN xlineN sampleN none readTrace points =
          .error (.invalidArgument (fenceOOBMsg q.1 q.2 0))) ∨
       (validateBoundary (transform q).2 xlineN = false ∧
        fetchFence transform ilineN xlineN sampleN none readTrace points =
          .error (.invalidArgument (fenceOOBMsg q.1 q.2 1))))) ∧
    (∀ f : ℚ, ∃ traces,
      fetchFence transform ilineN xlineN sampleN (some f) readTrace points =
        .ok traces ∧
      traces.length = points.length ∧
      traces[idx]? = some (List.replicate sampleN f) ∧
      ∀ (j : ℕ) (pt : ℚ × ℚ), points[j]? = some pt →
        validateBoundary (transform pt).1 ilineN = true →
        validateBoundary (transform pt).2 xlineN = true →
        traces[j]? =
          some (readTrace ((transform pt).1 + 1 / 2) ((transform pt).2 + 1 / 2))) := by
  constructor
  · obtain ⟨x, e, hmem, hfe, hmapm⟩ :=
      mapM_error_of_failure (fencePoint transform ilineN xlineN none) points idx p hp
        (fencePoint_none_fails transform ilineN xlineN p hoob)
    have hfence : fetchFence transform ilineN xlineN sampleN none readTrace points =
        .error e := by
      unfold fetchFence
      rw [hmapm]
      rfl
    rcases fencePoint_none_error transform ilineN xlineN x e hfe with ⟨hd, rfl⟩ | ⟨hd, rfl⟩
    · exact ⟨x, hmem, Or.inl ⟨hd, hfence⟩⟩
    · exact ⟨x, hmem, Or.inr ⟨hd, hfence⟩⟩
  · intro f
    obtain ⟨bs, hbs⟩ := mapM_ok_of_forall (fencePoint transform ilineN xlineN (some f))
      points (fun pt _ => ⟨_, fencePoint_some_ok transform ilineN xlineN f pt⟩)
    obtain ⟨hlen, hidx⟩ := mapM_ok_getElem _ points bs hbs
    refine ⟨bs.map (fencePointTrace sampleN readTrace), ?_, by simp [hlen], ?_, ?_⟩
    · unfold fetchFence
      rw [hbs]
      rfl
    · obtain ⟨b, hb1, hb2⟩ := hidx idx p hp
      rw [fencePoint_some_ok] at hb1
      have hb : b = .fillTrace f := by
        rcases hoob with h | h
        · rw [if_pos h] at hb1
          exact (Except.ok.inj hb1).symm
        · by_cases h1 : validateBoundary (transform p).1 ilineN = false
          · rw [if_pos h1] at hb1
            exact (Except.ok.inj hb1).symm
          · rw [if_neg h1, if_pos h] at hb1
            exact (Except.ok.inj hb1).symm
      rw [List.getElem?_map, hb2, hb]
      rfl
    · intro j pt hpt hv1 hv2
      obtain ⟨b, hb1, hb2⟩ := hidx j pt hpt
      rw [fencePoint_some_ok, if_neg (by simp [hv1]), if_neg (by simp [hv2])] at hb1
      rw [List.getElem?_map, hb2, (Except.ok.inj hb1).symm]
      rfl

/-- Witness query for C2: a 3x2x4 cube in index coordinates with one
out-of-bounds point. -/
def c2Points : List (ℚ × ℚ) := [(1, 0), (-1, 0)]

/-- Witness for C2: with points `[(1,0), (-1,0)]` on a cube with 3
inlines and 2 crosslines, the second point is out of bounds in
dimension 0; the theorem yields the bad-request error without a fill
value and the substituted trace with fill value -999.25. -/
theorem fence_out_of_bounds_witness :
    (∃ q, q ∈ c2Points ∧
      ((validateBoundary ((fun p : ℚ × ℚ => p) q).1 3 = false ∧
        fetchFence (fun p => p) 3 2 4 none (fun i x => [i, x, i, x]) c2Points =
          .error (.invalidArgument (fenceOOBMsg q.1 q.2 0))) ∨
       (validateBoundary ((fun p : ℚ × ℚ => p) q).2 2 = false ∧
        fetchFence (fun p => p) 3 2 4 none (fun i x => [i, x, i, x]) c2Points =
          .error (.invalidArgument (fenceOOBMsg q.1 q.2 1))))) ∧
    (∀ f : ℚ, ∃ traces,
      fetchFence (fun p => p) 3 2 4 (some f) (fun i x => [i, x, i, x]) c2Points =
        .ok traces ∧
      traces.length = c2Points.length ∧
      traces[1]? = some (List.replicate 4 f) ∧
      ∀ (j : ℕ) (pt : ℚ × ℚ), c2Points[j]? = some pt →
        validateBoundary ((fun p : ℚ × ℚ => p) pt).1 3 = true →
        validateBoundary ((fun p : ℚ × ℚ => p) pt).2 2 = true →
        traces[j]? =
          some ((fun i x => [i, x, i, x]) (((fun p : ℚ × ℚ => p) pt).1 + 1 / 2)
            (((fun p : ℚ × ℚ => p) pt).2 + 1 / 2))) :=
  fence_out_of_bounds (fun p => p) 3 2 4 (fun i x => [i, x, i, x]) c2Points 1 (-1, 0)
    (by decide)
    (Or.inl ((validateBoundary_eq_false (-1) 3).mpr (Or.inl (by norm_num))))

/-- Witness query for C4: the `well_known` 3x2x4 cube geometry with a
constant transformer output. -/
def c4Query : HorizonQuery where
  fill := -999.25
  cellIJ := fun _ _ => (1, 0)
  depthK := fun z => z
  ilineN := 3
  xlineN := 2
  sampleN := 4
  above := 1
  below := 1
  sampleMin := 0
  sampleMax := 3

/-- C4: the half-voxel shift is applied exactly once before every data
fetch. An in-bounds fence point is handed to `read_traces` at exactly
the coordinate-transformer output plus 0.5 on both horizontal axes, and
a populated horizon cell emits to `read_samples` exactly the vertical
window built from the transformer outputs plus 0.5 on the two
horizontal axes and on the vertical voxel position. -/
theorem half_voxel_shift_once
    (transform : ℚ × ℚ → ℚ × ℚ) (ilineN xlineN : ℕ) (fv : Option ℚ) (p : ℚ × ℚ)
    (hin0 : validateBoundary (transform p).1 ilineN = true)
    (hin1 : validateBoundary (transform p).2 xlineN = true)
    (q : HorizonQuery) (row col : ℕ) (depth : ℚ) (coords : List (ℚ × ℚ × ℚ))
    (hcell : horizonCell q row col depth = .ok (.samples coords)) :
    fencePoint transform ilineN xlineN fv p =
      .ok (.fetch ((transform p).1 + 1 / 2) ((transform p).2 + 1 / 2)) ∧
    coords = (List.range q.vsize).map (fun t : ℕ =>
      ((q.cellIJ row col).1 + 1 / 2, (q.cellIJ row col).2 + 1 / 2,
        q.depthK depth + 1 / 2 - q.above + (t : ℚ))) := by
  constructor
  · simp only [fencePoint]
    rw [if_neg (by simp [hin0]), if_neg (by simp [hin1])]
  · simp only [horizonCell] at hcell
    split_ifs at hcell with h1 h2 h3
    all_goals first
      | exact (HorizonCell.samples.inj (Except.ok.inj hcell)).symm
      | exact HorizonCell.noConfusion (Except.ok.inj hcell)
      | exact Except.noConfusion hcell

/-- Witness for C4: a fence point at index position (1, 0) and a horizon
cell at depth 8 ms on the `well_known` geometry; both fetches receive
the transformer output shifted by exactly +0.5 per sampled axis. -/
theorem half_voxel_shift_once_witness :
    fencePoint (fun p => p) 3 2 none (1, 0) =
      .ok (.fetch (((1 : ℚ), (0 : ℚ)).1 + 1 / 2) (((1 : ℚ), (0 : ℚ)).2 + 1 / 2)) ∧
    ([((3 : ℚ) / 2, (1 : ℚ) / 2, (1 : ℚ) / 2), (3 / 2, 1 / 2, 3 / 2),
        (3 / 2, 1 / 2, 5 / 2)] : List (ℚ × ℚ × ℚ)) =
      (List.range c4Query.vsize).map (fun t : ℕ =>
        ((c4Query.cellIJ 0 0).1 + 1 / 2, (c4Query.cellIJ 0 0).2 + 1 / 2,
          c4Query.depthK 1 + 1 / 2 - c4Query.above + (t : ℚ))) :=
  half_voxel_shift_once (fun p => p) 3 2 none (1, 0)
    ((validateBoundary_eq_true 1 3).mpr (by norm_num))
    ((validateBoundary_eq_true 0 2).mpr (by norm_num))
    c4Query 0 0 1
    [((3 : ℚ) / 2, (1 : ℚ) / 2, (1 : ℚ) / 2), (3 / 2, 1 / 2, 3 / 2), (3 / 2, 1 / 2, 5 / 2)]
    (by
      simp only [horizonCell, c4Query, HorizonQuery.vsize, inrangeAxis]
      norm_num [List.range_succ])

/-! ## Worker range partition (claim C9) -/

theorem covers_le {a c : ℕ} {l : List (ℕ × ℕ)} (h : Covers a c l) : a ≤ c := by
  induction h with
  | nil => exact le_refl _
  | cons hab _ ih => exact le_trans (le_of_lt hab) ih

theorem covers_bounds {a c : ℕ} {l : List (ℕ × ℕ)} (h : Covers a c l) :
    ∀ p ∈ l, a ≤ p.1 ∧ p.1 < p.2 ∧ p.2 ≤ c := by
  induction h with
  | nil => simp
  | @cons a b c l hab hrest ih =>
    intro p hp
    rcases List.mem_cons.mp hp with rfl | hp
    · exact ⟨le_refl _, hab, covers_le hrest⟩
    · have hb := ih p hp
      exact ⟨le_trans (le_of_lt hab) hb.1, hb.2.1, hb.2.2⟩

theorem covers_pairwise {a c : ℕ} {l : List (ℕ × ℕ)} (h : Covers a c l) :
    l.Pairwise (fun p q => p.2 ≤ q.1) := by
  induction h with
  | nil => exact List.Pairwise.nil
  | @cons a b c l hab hrest ih =>
    refine List.Pairwise.cons ?_ ih
    intro q hq
    exact (covers_bounds hrest q hq).1

theorem covers_mem_iff {a c : ℕ} {l : List (ℕ × ℕ)} (h : Covers a c l) (x : ℕ) :
    (∃ p ∈ l, p.1 ≤ x ∧ x < p.2) ↔ (a ≤ x ∧ x < c) := by
  induction h with
  | nil =>
    constructor
    · rintro ⟨p, hp, _⟩
      simp at hp
    · rintro ⟨hax, hxa⟩
      omega
  | @cons a b c l hab hrest ih =>
    constructor
    · rintro ⟨p, hp, hx1, hx2⟩
      rcases List.mem_cons.mp hp with rfl | hp
      · exact ⟨hx1, lt_of_lt_of_le hx2 (covers_le hrest)⟩
      · have hb := ih.mp ⟨p, hp, hx1, hx2⟩
        exact ⟨le_trans (le_of_lt hab) hb.1, hb.2⟩
    · rintro ⟨hax, hxc⟩
      by_cases hx : x < b
      · exact ⟨(a, b), by simp, hax, hx⟩
      · obtain ⟨p, hp, hx1, hx2⟩ := ih.mpr ⟨le_of_not_lt hx, hxc⟩
        exact ⟨p, by simp [hp], hx1, hx2⟩

theorem chunkRangesAux_covers (wpr : ℕ) (hw : 1 ≤ wpr) (fuel : ℕ) :
    ∀ remaining start : ℕ, remaining ≤ fuel →
      Covers start (start + remaining) (chunkRangesAux wpr fuel start remaining) := by
  induction fuel with
  | zero =>
    intro remaining start h
    have h0 : remaining = 0 := Nat.le_zero.mp h
    subst h0
    simpa [chunkRangesAux] using Covers.nil start
  | succ fuel ih =>
    intro remaining start h
    simp only [chunkRangesAux]
    by_cases hr : remaining = 0
    · rw [if_pos hr, hr, Nat.add_zero]
      exact Covers.nil start
    · rw [if_neg hr]
      have hsz1 : 1 ≤ min wpr remaining :=
        le_min hw (Nat.one_le_iff_ne_zero.mpr hr)
      have hc := ih (remaining - min wpr remaining) (start + min wpr remaining)
        (by omega)
      have heq : start + min wpr remaining + (remaining - min wpr remaining) =
          start + remaining := by
        have := Nat.min_le_right wpr remaining
        omega
      rw [heq] at hc
      exact Covers.cons (by omega) hc

theorem chunkRangesAux_length (wpr : ℕ) (hw : 1 ≤ wpr) (fuel : ℕ) :
    ∀ remaining start : ℕ, remaining ≤ fuel →
      (chunkRangesAux wpr fuel start remaining).length =
        (remaining + wpr - 1) / wpr := by
  induction fuel with
  | zero =>
    intro remaining start h
    have h0 : remaining = 0 := Nat.le_zero.mp h
    subst h0
    simp only [chunkRangesAux, List.length_nil]
    rw [eq_comm, Nat.div_eq_of_lt (by omega)]
  | succ fuel ih =>
    intro remaining start h
    simp only [chunkRangesAux]
    by_cases hr : remaining = 0
    · rw [if_pos hr, hr]
      simp only [List.length_nil]
      rw [eq_comm, Nat.div_eq_of_lt (by omega)]
    · rw [if_neg hr]
      simp only [List.length_cons]
      have hminr := Nat.min_le_right wpr remaining
      have hminl := Nat.min_le_left wpr remaining
      rw [ih (remaining - min wpr remaining) (start + min wpr remaining) (by omega)]
      by_cases hcase : remaining ≤ wpr
      · have hmin : min wpr remaining = remaining := min_eq_right hcase
        rw [hmin]
        rw [Nat.div_eq_of_lt (by omega),
          show remaining + wpr - 1 = (remaining - 1) + 1 * wpr by omega,
          Nat.add_mul_div_right _ _ (by omega : 0 < wpr),
          Nat.div_eq_of_lt (by omega : remaining - 1 < wpr)]
      · have hmin : min wpr remaining = wpr := min_eq_left (by omega)
        rw [hmin]
        have h2 : remaining + wpr - 1 = (remaining - 1) + wpr := by omega
        have h3 : remaining - wpr + wpr - 1 = remaining - 1 := by omega
        rw [h2, h3, Nat.add_div_right _ (by omega)]

/-- C9: for `hsize ≥ 1` the chunk loop of `VDSHandle.calculateAttributes`
partitions the cell range `[0, hsize)` into at most 32 contiguous,
pairwise-disjoint `[from, to)` worker ranges whose union is exactly
`[0, hsize)`, so distinct workers write disjoint precomputed slices of
the shared output buffer. -/
theorem attribute_ranges_partition (hsize : ℕ) (h1 : 1 ≤ hsize) :
    (attributeRanges hsize).length ≤ 32 ∧
    Covers 0 hsize (attributeRanges hsize) ∧
    List.Pairwise (fun p q : ℕ × ℕ => p.2 ≤ q.1) (attributeRanges hsize) ∧
    (∀ x : ℕ, (∃ p ∈ attributeRanges hsize, p.1 ≤ x ∧ x < p.2) ↔ x < hsize) := by
  have hw : 1 ≤ windowsPerRoutine hsize := by
    unfold windowsPerRoutine
    omega
  have hcov : Covers 0 hsize (attributeRanges hsize) := by
    have hc := chunkRangesAux_covers (windowsPerRoutine hsize) hw hsize hsize 0
      (le_refl _)
    simpa [attributeRanges] using hc
  refine ⟨?_, hcov, covers_pairwise hcov, ?_⟩
  · rw [attributeRanges,
      chunkRangesAux_length (windowsPerRoutine hsize) hw hsize hsize 0 (le_refl _)]
    have h32 : hsize ≤ 32 * windowsPerRoutine hsize := by
      unfold windowsPerRoutine
      omega
    have hlt : (hsize + windowsPerRoutine hsize - 1) / windowsPerRoutine hsize < 33 :=
      (Nat.div_lt_iff_lt_mul (by omega)).mpr (by omega)
    omega
  · intro x
    rw [covers_mem_iff hcov x]
    omega

/-- Witness for C9: the partition theorem evaluated at `hsize = 70`
(three worker ranges of at most 3 cells each). -/
theorem attribute_ranges_partition_witness :
    (attributeRanges 70).length ≤ 32 ∧
    Covers 0 70 (attributeRanges 70) ∧
    List.Pairwise (fun p q : ℕ × ℕ => p.2 ≤ q.1) (attributeRanges 70) ∧
    (∀ x : ℕ, (∃ p ∈ attributeRanges 70, p.1 ≤ x ∧ x < p.2) ↔ x < 70) :=
  attribute_ranges_partition 70 (by decide)

/-! ## Output assembly (claim C10) -/

/-- C10: a successful attributes request over an `nrows x ncols` surface
with attribute names `attrNames` (all valid) returns exactly one byte
slice per requested attribute, in the order the names were given
(`targetAttributes` preserves the input order, and slice `i` belongs to
attribute `i`), and slice `i` is exactly the contiguous
`nrows * ncols * 4`-byte region `[i*mapsize, (i+1)*mapsize)` of the
shared output buffer. -/
theorem attributes_output_slices {α : Type} (buffer : List α)
    (nrows ncols n : ℕ) (attrNames : List String) (attrs : List Attr)
    (hnames : attrNames.mapM GetAttributeType = .ok attrs)
    (hn : n = attrs.length)
    (hlen : buffer.length = nrows * ncols * 4 * n) :
    n = attrNames.length ∧
    (calculateAttributesOut buffer (nrows * ncols) n).length = n ∧
    ∀ i : ℕ, i < n → ∃ sl,
      (calculateAttributesOut buffer (nrows * ncols) n)[i]? = some sl ∧
      sl.length = nrows * ncols * 4 ∧
      ∀ j : ℕ, j < nrows * ncols * 4 →
        sl[j]? = buffer[i * (nrows * ncols * 4) + j]? := by
  obtain ⟨hlen2, _⟩ := mapM_ok_getElem GetAttributeType attrNames attrs hnames
  refine ⟨by rw [hn, hlen2], by simp [calculateAttributesOut], ?_⟩
  intro i hi
  refine ⟨(buffer.drop (i * (nrows * ncols * 4))).take (nrows * ncols * 4), ?_, ?_, ?_⟩
  · simp only [calculateAttributesOut, List.getElem?_map, List.getElem?_range hi]
    rfl
  · have hdrop : (buffer.drop (i * (nrows * ncols * 4))).length =
        nrows * ncols * 4 * n - i * (nrows * ncols * 4) := by
      rw [List.length_drop, hlen]
    have hge : nrows * ncols * 4 ≤ (buffer.drop (i * (nrows * ncols * 4))).length := by
      rw [hdrop]
      have hmul : (i + 1) * (nrows * ncols * 4) ≤ n * (nrows * ncols * 4) :=
        Nat.mul_le_mul_right _ (by omega)
      have hsucc : (i + 1) * (nrows * ncols * 4) =
          i * (nrows * ncols * 4) + nrows * ncols * 4 := by ring
      have hcomm : nrows * ncols * 4 * n = n * (nrows * ncols * 4) := by ring
      omega
    exact List.length_take_of_le hge
  · intro j hj
    rw [List.getElem?_take_of_lt hj, List.getElem?_drop]

/-- Witness for C10: a concrete 8-element buffer for a 1x1 surface and
the two attributes `["min", "max"]` splits into the regions `[0, 4)` and
`[4, 8)`. -/
theorem attributes_output_slices_witness :
    (2 : ℕ) = (["min", "max"] : List String).length ∧
    (calculateAttributesOut [10, 11, 12, 13, 20, 21, 22, 23] (1 * 1) 2).length = 2 ∧
    ∀ i : ℕ, i < 2 → ∃ sl,
      (calculateAttributesOut ([10, 11, 12, 13, 20, 21, 22, 23] : List ℕ)
        (1 * 1) 2)[i]? = some sl ∧
      sl.length = 1 * 1 * 4 ∧
      ∀ j : ℕ, j < 1 * 1 * 4 →
        sl[j]? = ([10, 11, 12, 13, 20, 21, 22, 23] : List ℕ)[i * (1 * 1 * 4) + j]? :=
  attributes_output_slices [10, 11, 12, 13, 20, 21, 22, 23] 1 1 2 ["min", "max"]
    [.MIN, .MAX] (by decide) (by decide) (by decide)

/-! ## Fill cell propagation (claim C1) -/

theorem horizonCell_fill (q : HorizonQuery) (row col : ℕ) :
    horizonCell q row col q.fill = .ok .noval := by
  simp [horizonCell]

theorem horizonCell_ok_buffer_length (q : HorizonQuery) (row col : ℕ) (v : ℚ)
    (c : HorizonCell) (h : horizonCell q row col v = .ok c)
    (readSample : ℚ × ℚ × ℚ → ℚ) :
    (cellBuffer q readSample c).length = q.vsize := by
  cases c with
  | noval => simp [cellBuffer]
  | samples coords =>
    simp only [cellBuffer, List.length_map]
    simp only [horizonCell] at h
    split_ifs at h with h1 h2 h3
    all_goals first
      | exact HorizonCell.noConfusion (Except.ok.inj h)
      | exact Except.noConfusion h
      | (rw [← HorizonCell.samples.inj (Except.ok.inj h)]
         simp)

theorem horizonRowAux_ok (q : HorizonQuery) (row : ℕ) (vals : List ℚ)
    (cs : List HorizonCell) :
    ∀ col0 : ℕ, horizonRowAux q row col0 vals = .ok cs →
      cs.length = vals.length ∧
      (∀ c ∈ cs, ∃ k v, horizonCell q row k v = .ok c) ∧
      ∀ (j : ℕ) (v : ℚ), vals[j]? = some v →
        ∃ c, horizonCell q row (col0 + j) v = .ok c ∧ cs[j]? = some c := by
  induction vals generalizing cs with
  | nil =>
    intro col0 h
    change Except.ok [] = Except.ok cs at h
    cases h
    exact ⟨rfl, by simp, by intro j v hv; simp at hv⟩
  | cons v rest ih =>
    intro col0 h
    simp only [horizonRowAux] at h
    cases hc : horizonCell q row col0 v with
    | error e =>
      rw [hc] at h
      change Except.error e = Except.ok cs at h
      cases h
    | ok c =>
      rw [hc] at h
      cases hrest : horizonRowAux q row (col0 + 1) rest with
      | error e =>
        rw [hrest] at h
        change Except.error e = Except.ok cs at h
        cases h
      | ok cs2 =>
        rw [hrest] at h
        change Except.ok (c :: cs2) = Except.ok cs at h
        cases h
        obtain ⟨hl, hmem, hidx⟩ := ih cs2 (col0 + 1) hrest
        refine ⟨by simp [hl], ?_, ?_⟩
        · intro x hx
          rcases List.mem_cons.mp hx with rfl | hx
          · exact ⟨col0, v, hc⟩
          · exact hmem x hx
        · intro j w hw
          cases j with
          | zero =>
            simp only [List.getElem?_cons_zero, Option.some.injEq] at hw
            subst hw
            exact ⟨c, by simpa using hc, by simp⟩
          | succ j =>
            simp only [List.getElem?_cons_succ] at hw
            obtain ⟨c2, hc2, hcs2⟩ := hidx j w hw
            refine ⟨c2, ?_, by simpa using hcs2⟩
            rw [show col0 + (j + 1) = col0 + 1 + j by omega]
            exact hc2

theorem horizonGridAux_ok (q : HorizonQuery) (ncols : ℕ) (rows : List (List ℚ))
    (cells : List HorizonCell) (hrect : ∀ r ∈ rows, r.length = ncols) :
    ∀ row0 : ℕ, horizonGridAux q row0 rows = .ok cells →
      cells.length = rows.length * ncols ∧
      (∀ c ∈ cells, ∃ r k v, horizonCell q r k v = .ok c) ∧
      ∀ (i j : ℕ) (rowvals : List ℚ) (v : ℚ), rows[i]? = some rowvals →
        rowvals[j]? = some v →
        ∃ c, horizonCell q (row0 + i) j v = .ok c ∧
          cells[i * ncols + j]? = some c := by
  induction rows generalizing cells with
  | nil =>
    intro row0 h
    change Except.ok [] = Except.ok cells at h
    cases h
    refine ⟨by simp, by simp, ?_⟩
    intro i j rowvals v hi
    simp at hi
  | cons vals rest ih =>
    intro row0 h
    simp only [horizonGridAux] at h
    cases hcs : horizonRowAux q row0 0 vals with
    | error e =>
      rw [hcs] at h
      change Except.error e = Except.ok cells at h
      cases h
    | ok cs =>
      rw [hcs] at h
      cases hcss : horizonGridAux q (row0 + 1) rest with
      | error e =>
        rw [hcss] at h
        change Except.error e = Except.ok cells at h
        cases h
      | ok css =>
        rw [hcss] at h
        change Except.ok (cs ++ css) = Except.ok cells at h
        cases h
        have hvlen : vals.length = ncols := hrect vals (by simp)
        obtain ⟨hcl, hcmem, hcidx⟩ := horizonRowAux_ok q row0 vals cs 0 hcs
        obtain ⟨hgl, hgmem, hgidx⟩ :=
          ih css (fun r hr => hrect r (by simp [hr])) (row0 + 1) hcss
        refine ⟨?_, ?_, ?_⟩
        · simp only [List.length_append, List.length_cons, hcl, hgl, hvlen]
          ring
        · intro c hc
          rcases List.mem_append.mp hc with hc | hc
          · obtain ⟨k, v, hkv⟩ := hcmem c hc
            exact ⟨row0, k, v, hkv⟩
          · exact hgmem c hc
        · intro i j rowvals v hi hj
          cases i with
          | zero =>
            simp only [List.getElem?_cons_zero, Option.some.injEq] at hi
            subst hi
            obtain ⟨c, hc1, hc2⟩ := hcidx j v hj
            refine ⟨c, by simpa using hc1, ?_⟩
            rw [Nat.zero_mul, Nat.zero_add]
            have hjlt : j < cs.length := by
              rw [hcl]
              rw [List.getElem?_eq_some] at hj
              exact hj.1
            rw [List.getElem?_append_left hjlt]
            exact hc2
          | succ i =>
            simp only [List.getElem?_cons_succ] at hi
            obtain ⟨c, hc1, hc2⟩ := hgidx i j rowvals v hi hj
            refine ⟨c, by rw [show row0 + (i + 1) = row0 + 1 + i by omega]; exact hc1, ?_⟩
            have hidx2 : (i + 1) * ncols + j = cs.length + (i * ncols + j) := by
              rw [hcl, hvlen]
              ring
            rw [hidx2, List.getElem?_append_right (Nat.le_add_right _ _),
              Nat.add_sub_cancel_left]
            exact hc2

theorem bufferOffsetsAux_head (vsize acc : ℕ) (l : List Bool) :
    (bufferOffsetsAux vsize acc l).getD 0 0 = acc := by
  cases l <;> rfl

theorem bufferOffsetsAux_diff (vsize : ℕ) (pops : List Bool) :
    ∀ (acc k : ℕ) (p : Bool), pops[k]? = some p →
      (bufferOffsetsAux vsize acc pops).getD (k + 1) 0 =
        (bufferOffsetsAux vsize acc pops).getD k 0 + (if p then vsize else 0) := by
  induction pops with
  | nil =>
    intro acc k p h
    simp at h
  | cons b rest ih =>
    intro acc k p h
    cases k with
    | zero =>
      simp only [List.getElem?_cons_zero, Option.some.injEq] at h
      subst h
      simp only [bufferOffsetsAux, List.getD_cons_succ, List.getD_cons_zero,
        bufferOffsetsAux_head]
    | succ k =>
      simp only [List.getElem?_cons_succ] at h
      simp only [bufferOffsetsAux, List.getD_cons_succ]
      exact ih (acc + if b then vsize else 0) k p h

/-- C1: for every surface cell whose value equals the fill value, the
horizon pass records a no-value cell and emits no cube sample for it,
the horizon output buffer holds the fill value over the whole cell
region, and the attribute pass emits the fill value at that cell for
every attribute kernel, in along-surface mode (empty packed window via
the buffer offsets) as well as in between-surfaces mode (the cell
becomes a fill cell for any secondary surface). -/
theorem fill_cell_propagates (q : HorizonQuery) (values : List (List ℚ))
    (ncols : ℕ) (hrect : ∀ r ∈ values, r.length = ncols)
    (row col : ℕ) (rowvals : List ℚ)
    (hrow : values[row]? = some rowvals) (hv : rowvals[col]? = some q.fill)
    (cells : List HorizonCell) (hcells : horizonCells q values = .ok cells)
    (readSample : ℚ × ℚ × ℚ → ℚ) :
    cells[row * ncols + col]? = some .noval ∧
    ((horizonBuffer q readSample cells).drop ((row * ncols + col) * q.vsize)).take
      q.vsize = List.replicate q.vsize q.fill ∧
    cellWindowAt (packedHorizon readSample cells)
      (bufferOffsets q.vsize (cells.map HorizonCell.isPopulated))
      (row * ncols + col) = [] ∧
    (∀ kernel : List ℚ → ℚ,
      attributeCell q.fill kernel
        (cellWindowAt (packedHorizon readSample cells)
          (bufferOffsets q.vsize (cells.map HorizonCell.isPopulated))
          (row * ncols + col)) = q.fill) ∧
    (∀ (fillS sv : ℚ) (window : List ℚ) (kernel : List ℚ → ℚ),
      attributeCell q.fill kernel
        (betweenCellWindow q.fill fillS q.fill sv window) = q.fill) := by
  obtain ⟨hlen, hmem, hidx⟩ :=
    horizonGridAux_ok q ncols values cells hrect 0 hcells
  obtain ⟨c, hc1, hc2⟩ := hidx row col rowvals q.fill hrow hv
  have hcnoval : c = .noval := by
    rw [horizonCell_fill q (0 + row) col] at hc1
    exact (Except.ok.inj hc1).symm
  subst hcnoval
  have hwin : cellWindowAt (packedHorizon readSample cells)
      (bufferOffsets q.vsize (cells.map HorizonCell.isPopulated))
      (row * ncols + col) = [] := by
    have hpop : (cells.map HorizonCell.isPopulated)[row * ncols + col]? =
        some false := by
      rw [List.getElem?_map, hc2]
      rfl
    have hdiff := bufferOffsetsAux_diff q.vsize (cells.map HorizonCell.isPopulated)
      0 (row * ncols + col) false hpop
    simp only [if_neg (by simp : ¬(false = true))] at hdiff
    unfold cellWindowAt bufferOffsets
    rw [hdiff]
    simp
  refine ⟨hc2, ?_, hwin, ?_, ?_⟩
  · have hbl : ∀ cb ∈ cells.map (cellBuffer q readSample), cb.length = q.vsize := by
      intro cb hcb
      obtain ⟨c2, hc2mem, rfl⟩ := List.mem_map.mp hcb
      obtain ⟨r, k, v, hrv⟩ := hmem c2 hc2mem
      exact horizonCell_ok_buffer_length q r k v c2 hrv readSample
    have hbidx : (cells.map (cellBuffer q readSample))[row * ncols + col]? =
        some (List.replicate q.vsize q.fill) := by
      rw [List.getElem?_map, hc2]
      rfl
    exact flatten_drop_take_of_rect (cells.map (cellBuffer q readSample)) q.vsize
      hbl (row * ncols + col) (List.replicate q.vsize q.fill) hbidx
  · intro kernel
    rw [hwin]
    rfl
  · intro fillS sv window kernel
    unfold attributeCell betweenCellWindow betweenIsFill
    rw [if_pos (by simp)]

/-- Witness query for C1: an all-fill 1x2 surface on the `well_known`
geometry. -/
def c1Query : HorizonQuery where
  fill := -999
  cellIJ := fun _ _ => (1, 0)
  depthK := fun z => z
  ilineN := 3
  xlineN := 2
  sampleN := 4
  above := 1
  below := 1
  sampleMin := 0
  sampleMax := 3

/-- Witness for C1: both cells of an all-fill surface are no-value
cells; cell (0, 1) yields a fill-filled buffer region and the fill value
for every attribute in both modes. -/
theorem fill_cell_propagates_witness :
    ([HorizonCell.noval, HorizonCell.noval] : List HorizonCell)[0 * 2 + 1]? =
      some .noval ∧
    ((horizonBuffer c1Query (fun _ => 0) [.noval, .noval]).drop
      ((0 * 2 + 1) * c1Query.vsize)).take c1Query.vsize =
      List.replicate c1Query.vsize c1Query.fill ∧
    cellWindowAt (packedHorizon (fun _ => 0) [.noval, .noval])
      (bufferOffsets c1Query.vsize
        (([HorizonCell.noval, HorizonCell.noval]).map HorizonCell.isPopulated))
      (0 * 2 + 1) = [] ∧
    (∀ kernel : List ℚ → ℚ,
      attributeCell c1Query.fill kernel
        (cellWindowAt (packedHorizon (fun _ => 0) [.noval, .noval])
          (bufferOffsets c1Query.vsize
            (([HorizonCell.noval, HorizonCell.noval]).map HorizonCell.isPopulated))
          (0 * 2 + 1)) = c1Query.fill) ∧
    (∀ (fillS sv : ℚ) (window : List ℚ) (kernel : List ℚ → ℚ),
      attributeCell c1Query.fill kernel
        (betweenCellWindow c1Query.fill fillS c1Query.fill sv window) =
        c1Query.fill) :=
  fill_cell_propagates c1Query [[-999, -999]] 2 (by decide) 0 1
    [-999, -999] (by decide) (by decide) [.noval, .noval] (by decide)
    (fun _ => 0)

end Oneseismic
